import Mathlib

/-!
Formal model of the FastLexRank summarizer (`src/FastLexRank/FastLexRank.py`).

Floating point arrays are idealized as exact rational matrices; real numbers
enter only through the square root used in the score normalization (line 58 of
the source).  The sentence-embedding provider (`_get_sentence_embeddings`) is an
external collaborator: the pipeline below is parameterized by the embedding
matrix it returns.  `np.argsort` is modelled with the stable tie order (equal
values keep ascending original index), which is the order numpy produces on the
inputs considered here and the order the specification attributes to the
reference implementation.
-/

namespace FastLexRank

/-- Comparison used to model `np.argsort` on (score, index) pairs: sort by score
ascending, breaking equal scores by ascending original index (stable ties). -/
def pairLe {α : Type} [LinearOrder α] (p q : α × ℕ) : Prop :=
  p.1 < q.1 ∨ (p.1 = q.1 ∧ p.2 ≤ q.2)

instance pairLeDecidable {α : Type} [LinearOrder α] : DecidableRel (@pairLe α _) := by
  unfold pairLe
  infer_instance

instance pairLeTotal {α : Type} [LinearOrder α] : IsTotal (α × ℕ) pairLe := by
  constructor
  intro a b
  rcases lt_trichotomy a.1 b.1 with h | h | h
  · exact Or.inl (Or.inl h)
  · rcases le_total a.2 b.2 with h2 | h2
    · exact Or.inl (Or.inr ⟨h, h2⟩)
    · exact Or.inr (Or.inr ⟨h.symm, h2⟩)
  · exact Or.inr (Or.inl h)

instance pairLeTrans {α : Type} [LinearOrder α] : IsTrans (α × ℕ) pairLe := by
  constructor
  intro a b c hab hbc
  rcases hab with h1 | ⟨e1, i1⟩
  · rcases hbc with h2 | ⟨e2, _⟩
    · exact Or.inl (h1.trans h2)
    · exact Or.inl (e2 ▸ h1)
  · rcases hbc with h2 | ⟨e2, i2⟩
    · exact Or.inl (e1 ▸ h2)
    · exact Or.inr ⟨e1.trans e2, i1.trans i2⟩

/-- Source line 40: `np.inner(embeddings, embeddings)`.  For two-dimensional
arrays `np.inner(A, B)` is the matrix of row-by-row dot products, i.e. `A * Bᵀ`. -/
def get_similarity_matrix {N D : ℕ} (E : Matrix (Fin N) (Fin D) ℚ) :
    Matrix (Fin N) (Fin N) ℚ :=
  E * E.transpose

/-- Source line 52: `similarity_matrix[similarity_matrix < self.threshold] = 0`,
the masked assignment zeroing every entry strictly below the threshold. -/
def mask_below {N : ℕ} (t : ℚ) (S : Matrix (Fin N) (Fin N) ℚ) :
    Matrix (Fin N) (Fin N) ℚ :=
  Matrix.of fun i j => if S i j < t then 0 else S i j

/-- Source lines 51-52: the masking runs under `if self.threshold:`.  Python
truthiness makes both `None` and `0.0` skip the masking. -/
def threshold_step {N : ℕ} (t : Option ℚ) (S : Matrix (Fin N) (Fin N) ℚ) :
    Matrix (Fin N) (Fin N) ℚ :=
  match t with
  | none => S
  | some c => if c = 0 then S else mask_below c S

/-- Source line 57: `z = similarity_matrix.sum(axis=0)` (column sums). -/
def col_sums {N : ℕ} (S : Matrix (Fin N) (Fin N) ℚ) : Fin N → ℚ :=
  fun j => ∑ i, S i j

/-- The radicand in source line 58: `(z**2).sum(axis=0)`. -/
def z_norm_sq {N : ℕ} (S : Matrix (Fin N) (Fin N) ℚ) : ℚ :=
  ∑ j, col_sums S j ^ 2

/-- Source lines 55-60, applied to the (already thresholded) similarity matrix:
`F = similarity_matrix.T`; `z = similarity_matrix.sum(axis=0)`;
`z = z / np.sqrt((z**2).sum(axis=0))`; `approx_scores = np.dot(z.T, F)`. -/
noncomputable def scores_from_matrix {N : ℕ} (S : Matrix (Fin N) (Fin N) ℚ) :
    Fin N → ℝ :=
  let F : Matrix (Fin N) (Fin N) ℝ := (S.map fun x => (x : ℝ)).transpose
  let z : Fin N → ℝ := fun j => (col_sums S j : ℝ) / Real.sqrt ((z_norm_sq S : ℝ))
  Matrix.vecMul z F

/-- Source lines 43-61, `get_lexrank_scores`, with the embedding matrix supplied
by the external provider: similarity, optional thresholding, then scoring. -/
noncomputable def get_lexrank_scores {N D : ℕ} (E : Matrix (Fin N) (Fin D) ℚ)
    (t : Option ℚ) : Fin N → ℝ :=
  scores_from_matrix (threshold_step t (get_similarity_matrix E))

/-- Number of elements kept by the Python slice `l[:n]` on a list of length
`len`, including the negative-`n` case (`l[:-k]` drops the last `k` items). -/
def slice_stop (n : ℤ) (len : ℕ) : ℕ :=
  if 0 ≤ n then n.toNat else len - (-n).toNat

/-- Python list slicing `l[:n]`. -/
def py_take {β : Type} (n : ℤ) (l : List β) : List β :=
  l.take (slice_stop n l.length)

/-- Model of `np.argsort(s)`: the indices of `s` sorted by ascending value,
equal values in ascending index order. -/
def argsort {α : Type} [LinearOrder α] (s : List α) : List ℕ :=
  (List.insertionSort pairLe (s.zip (List.range s.length))).map Prod.snd

/-- Source lines 63-71, `_get_top_sentences`:
`np.argsort(lexrank_scores)[::-1][:n]`. -/
def get_top_sentences {α : Type} [LinearOrder α] (scores : List α) (n : ℤ) :
    List ℕ :=
  py_take n (argsort scores).reverse

/-- Source lines 73-82, `summarize`: scores, top indices, then the
corresponding corpus sentences (`[self.corpus[i] for i in top_sentences]`). -/
noncomputable def summarize (corpus : List String) {D : ℕ}
    (E : Matrix (Fin corpus.length) (Fin D) ℚ) (t : Option ℚ) (n : ℤ) :
    List String :=
  (get_top_sentences (List.ofFn (get_lexrank_scores E t)) n).map
    (fun i => corpus.getD i "")

/-- Spec-side definition (spec section 4.3, step 1): the column-sums vector,
`z[j] = sum over i of S[i,j]`. -/
def spec_z {N : ℕ} (S : Matrix (Fin N) (Fin N) ℚ) : Fin N → ℚ :=
  fun j => ∑ i, S i j

/-- Spec-side definition (spec section 4.3, steps 2-3): normalize `z` by its
Euclidean norm and set `score[i] = sum over j of z_normalized[j] * S[i,j]`. -/
noncomputable def spec_scores {N : ℕ} (S : Matrix (Fin N) (Fin N) ℚ) :
    Fin N → ℝ :=
  fun i => ∑ j, (spec_z S j : ℝ) / Real.sqrt (∑ k, (spec_z S k : ℝ) ^ 2) * (S i j : ℝ)

/-- Spec-side definition of the cosine similarity the system deliberately does
not use: the inner product divided by the two vector norms. -/
noncomputable def cosine_similarity {N D : ℕ} (E : Matrix (Fin N) (Fin D) ℚ)
    (i j : Fin N) : ℝ :=
  (get_similarity_matrix E i j : ℝ) /
    (Real.sqrt (∑ k, (E i k : ℝ) ^ 2) * Real.sqrt (∑ k, (E j k : ℝ) ^ 2))

/-- The concrete corpus of the spec's worked scenario (three sentences whose
embeddings are `[[1,0],[1,0],[0,1]]`). -/
def demoCorpus : List String := ["a", "b", "c"]

/-- Embeddings `[[1,0],[1,0],[0,1]]` of the spec's worked scenario. -/
def demoE : Matrix (Fin 3) (Fin 2) ℚ := Matrix.of ![![1, 0], ![1, 0], ![0, 1]]

/-- A two-sentence embedding matrix with a negative off-diagonal similarity. -/
def negE : Matrix (Fin 2) (Fin 1) ℚ := Matrix.of ![![1], ![-1]]

/-- A one-sentence embedding matrix. -/
def oneE : Matrix (Fin 1) (Fin 1) ℚ := Matrix.of ![![1]]

/-- Two identical non-unit rows, separating dot product from cosine. -/
def simE : Matrix (Fin 2) (Fin 2) ℚ := Matrix.of ![![3, 4], ![3, 4]]

lemma argsort_perm_range {α : Type} [LinearOrder α] (s : List α) :
    List.Perm (argsort s) (List.range s.length) := by
  unfold argsort
  have h1 : List.Perm (List.insertionSort pairLe (s.zip (List.range s.length)))
      (s.zip (List.range s.length)) := List.perm_insertionSort _ _
  have h2 := h1.map Prod.snd
  rwa [List.map_snd_zip s (List.range s.length) (by simp)] at h2

lemma argsort_length {α : Type} [LinearOrder α] (s : List α) :
    (argsort s).length = s.length := by
  simpa using (argsort_perm_range s).length_eq

lemma argsort_nodup {α : Type} [LinearOrder α] (s : List α) :
    (argsort s).Nodup :=
  (argsort_perm_range s).nodup_iff.mpr (List.nodup_range _)

lemma mem_argsort {α : Type} [LinearOrder α] (s : List α) (k : ℕ) :
    k ∈ argsort s ↔ k < s.length := by
  rw [(argsort_perm_range s).mem_iff, List.mem_range]

lemma mem_sorted_pairs {α : Type} [LinearOrder α] (s : List α) (p : α × ℕ)
    (hp : p ∈ List.insertionSort pairLe (s.zip (List.range s.length))) :
    ∃ h : p.2 < s.length, p.1 = s.get ⟨p.2, h⟩ := by
  rw [List.mem_insertionSort] at hp
  obtain ⟨m, hm, hget⟩ := List.getElem_of_mem hp
  have hms : m < s.length := by
    have h2 := hm
    rw [List.length_zip, List.length_range, Nat.min_self] at h2
    exact h2
  have hz : (s.zip (List.range s.length)).get ⟨m, hm⟩ = (s.get ⟨m, hms⟩, m) := by
    simp [List.get_eq_getElem, List.getElem_zip]
  rw [List.get_eq_getElem] at hz
  rw [hz] at hget
  subst hget
  exact ⟨hms, rfl⟩

lemma argsort_tie_pos {α : Type} [LinearOrder α] (s : List α) {i j : ℕ}
    (hij : i < j) (hj : j < s.length)
    (heq : s.get ⟨i, hij.trans hj⟩ = s.get ⟨j, hj⟩)
    (p q : Fin (argsort s).length)
    (hpi : (argsort s).get p = i) (hqj : (argsort s).get q = j) :
    (p : ℕ) < (q : ℕ) := by
  have hsort : List.Sorted pairLe
      (List.insertionSort pairLe (s.zip (List.range s.length))) :=
    List.sorted_insertionSort pairLe _
  have hp : (p : ℕ) < (List.insertionSort pairLe (s.zip (List.range s.length))).length := by
    simpa [argsort, List.length_map] using p.isLt
  have hq : (q : ℕ) < (List.insertionSort pairLe (s.zip (List.range s.length))).length := by
    simpa [argsort, List.length_map] using q.isLt
  have hgetp :
      ((List.insertionSort pairLe (s.zip (List.range s.length))).get ⟨(p : ℕ), hp⟩).2 = i := by
    have h0 : (List.map Prod.snd
        (List.insertionSort pairLe (s.zip (List.range s.length)))).get
          ⟨(p : ℕ), by simpa [argsort, List.length_map] using p.isLt⟩ = i := hpi
    simpa [List.get_eq_getElem, List.getElem_map] using h0
  have hgetq :
      ((List.insertionSort pairLe (s.zip (List.range s.length))).get ⟨(q : ℕ), hq⟩).2 = j := by
    have h0 : (List.map Prod.snd
        (List.insertionSort pairLe (s.zip (List.range s.length)))).get
          ⟨(q : ℕ), by simpa [argsort, List.length_map] using q.isLt⟩ = j := hqj
    simpa [List.get_eq_getElem, List.getElem_map] using h0
  obtain ⟨hbp, hvp⟩ := mem_sorted_pairs s _ (List.get_mem _ (p : ℕ) hp)
  obtain ⟨hbq, hvq⟩ := mem_sorted_pairs s _ (List.get_mem _ (q : ℕ) hq)
  have hp1 :
      ((List.insertionSort pairLe (s.zip (List.range s.length))).get ⟨(p : ℕ), hp⟩).1 =
        s.get ⟨i, hij.trans hj⟩ := by
    rw [hvp]
    exact congrArg s.get (Fin.ext hgetp)
  have hq1 :
      ((List.insertionSort pairLe (s.zip (List.range s.length))).get ⟨(q : ℕ), hq⟩).1 =
        s.get ⟨j, hj⟩ := by
    rw [hvq]
    exact congrArg s.get (Fin.ext hgetq)
  rcases lt_trichotomy (p : ℕ) (q : ℕ) with h | h | h
  · exact h
  · exfalso
    have hij2 : i = j := by
      rw [← hpi, ← hqj]
      exact congrArg _ (Fin.ext h)
    omega
  · exfalso
    have hrel : pairLe
        ((List.insertionSort pairLe (s.zip (List.range s.length))).get ⟨(q : ℕ), hq⟩)
        ((List.insertionSort pairLe (s.zip (List.range s.length))).get ⟨(p : ℕ), hp⟩) :=
      hsort.rel_get_of_lt (Fin.mk_lt_mk.mpr h)
    rcases hrel with hlt | ⟨_, hle⟩
    · rw [hq1, hp1, heq] at hlt
      exact lt_irrefl _ hlt
    · rw [hgetq, hgetp] at hle
      omega

lemma rank_tie_indexOf {α : Type} [LinearOrder α] (s : List α) {i j : ℕ}
    (hij : i < j) (hj : j < s.length)
    (heq : s.get ⟨i, hij.trans hj⟩ = s.get ⟨j, hj⟩) :
    (argsort s).reverse.indexOf j < (argsort s).reverse.indexOf i := by
  have hRlen : (argsort s).reverse.length = (argsort s).length := List.length_reverse _
  have hslen : (argsort s).reverse.length = s.length := by rw [hRlen, argsort_length]
  have hiIn : i ∈ (argsort s).reverse := by
    rw [List.mem_reverse, mem_argsort]
    exact hij.trans hj
  have hjIn : j ∈ (argsort s).reverse := by
    rw [List.mem_reverse, mem_argsort]
    exact hj
  have hpi : (argsort s).reverse.indexOf i < (argsort s).reverse.length :=
    List.indexOf_lt_length.mpr hiIn
  have hpj : (argsort s).reverse.indexOf j < (argsort s).reverse.length :=
    List.indexOf_lt_length.mpr hjIn
  have hgi : (argsort s).reverse.get ⟨(argsort s).reverse.indexOf i, hpi⟩ = i :=
    List.indexOf_get hpi
  have hgj : (argsort s).reverse.get ⟨(argsort s).reverse.indexOf j, hpj⟩ = j :=
    List.indexOf_get hpj
  have hbp : (argsort s).length - 1 - (argsort s).reverse.indexOf i < (argsort s).length := by
    omega
  have hbq : (argsort s).length - 1 - (argsort s).reverse.indexOf j < (argsort s).length := by
    omega
  have h1 : (argsort s).get
      ⟨(argsort s).length - 1 - (argsort s).reverse.indexOf i, hbp⟩ = i := by
    rw [List.get_eq_getElem, ← List.getElem_reverse hpi]
    exact List.getElem_indexOf hpi
  have h2 : (argsort s).get
      ⟨(argsort s).length - 1 - (argsort s).reverse.indexOf j, hbq⟩ = j := by
    rw [List.get_eq_getElem, ← List.getElem_reverse hpj]
    exact List.getElem_indexOf hpj
  have hkey := argsort_tie_pos s hij hj heq ⟨_, hbp⟩ ⟨_, hbq⟩ h1 h2
  simp only [] at hkey
  omega

lemma getSimNeg : get_similarity_matrix negE 0 1 = -1 := by
  simp [get_similarity_matrix, negE, Matrix.mul_apply, Matrix.transpose,
    Matrix.of_apply, Matrix.vecHead, Matrix.vecTail, Fin.sum_univ_succ]

/-- Claim C1: for every similarity matrix S (after optional thresholding), the
scorer computes the column-sums vector z, normalizes z by its Euclidean norm,
and returns the score vector with score[i] = sum over j of z_normalized[j] *
S[i,j]; the source's transposed projection coincides with the spec formula. -/
theorem claim_C1_scores_match_spec {N : ℕ} (S : Matrix (Fin N) (Fin N) ℚ)
    (i : Fin N) : scores_from_matrix S i = spec_scores S i := by
  unfold scores_from_matrix spec_scores
  simp only [Matrix.vecMul, Matrix.dotProduct, Matrix.transpose_apply,
    Matrix.map_apply, spec_z, col_sums, z_norm_sq]
  push_cast
  rfl

/-- Claim C3 evidence: with one sentence of embedding [1] and threshold 2, the
thresholded similarity matrix is all-zero, every column sum is zero, and the
normalization denominator sqrt((z**2).sum()) is zero, so line 58 of the source
divides 0 by 0 with no guard (NaN in IEEE arithmetic). -/
theorem claim_C3_degenerate_no_guard :
    (∀ i j : Fin 1, threshold_step (some 2) (get_similarity_matrix oneE) i j = 0) ∧
      col_sums (threshold_step (some 2) (get_similarity_matrix oneE)) 0 = 0 ∧
      z_norm_sq (threshold_step (some 2) (get_similarity_matrix oneE)) = 0 ∧
      Real.sqrt ((z_norm_sq (threshold_step (some 2) (get_similarity_matrix oneE)) : ℝ)) = 0 := by
  have hS : ∀ i j : Fin 1, threshold_step (some 2) (get_similarity_matrix oneE) i j = 0 := by
    intro i j
    fin_cases i
    fin_cases j
    norm_num [threshold_step, mask_below, get_similarity_matrix, oneE,
      Matrix.mul_apply, Matrix.transpose, Matrix.of_apply, Matrix.vecHead,
      Matrix.vecTail, Fin.sum_univ_succ]
  have hcol : col_sums (threshold_step (some 2) (get_similarity_matrix oneE)) 0 = 0 := by
    simp [col_sums, hS]
  have hz : z_norm_sq (threshold_step (some 2) (get_similarity_matrix oneE)) = 0 := by
    simp [z_norm_sq, col_sums, hS]
  refine ⟨hS, hcol, hz, ?_⟩
  rw [hz]
  simp [Real.sqrt_zero]

/-- Claim C4 counterexample: the threshold 0 is present but, by Python
truthiness of `if self.threshold:`, the entry -1 < 0 is not replaced by zero. -/
theorem claim_C4_counterexample :
    get_similarity_matrix negE 0 1 < 0 ∧
      threshold_step (some 0) (get_similarity_matrix negE) 0 1 =
        get_similarity_matrix negE 0 1 ∧
      threshold_step (some 0) (get_similarity_matrix negE) 0 1 ≠ 0 := by
  refine ⟨?_, ?_, ?_⟩
  · rw [getSimNeg]; norm_num
  · simp [threshold_step]
  · simp [threshold_step, getSimNeg]

/-- Claim C4 amended: if a present threshold is nonzero, every entry strictly
below it becomes zero and every other entry (diagonal included) is unchanged;
an absent (or zero, by truthiness) threshold passes the matrix through. -/
theorem claim_C4_amended {N : ℕ} (t : ℚ) (S : Matrix (Fin N) (Fin N) ℚ)
    (ht : t ≠ 0) (i j : Fin N) :
    threshold_step (some t) S i j = (if S i j < t then 0 else S i j) ∧
      threshold_step none S i j = S i j := by
  constructor
  · simp [threshold_step, ht, mask_below]
  · rfl

theorem claim_C4_amended_witness :
    ((1 : ℚ) ≠ 0) ∧
      (threshold_step (some 1) (get_similarity_matrix negE) 0 1 =
          (if get_similarity_matrix negE 0 1 < 1 then 0
            else get_similarity_matrix negE 0 1) ∧
        threshold_step none (get_similarity_matrix negE) 0 1 =
          get_similarity_matrix negE 0 1) :=
  ⟨by norm_num, claim_C4_amended 1 (get_similarity_matrix negE) (by norm_num) 0 1⟩

/-- Claim C5: the similarity builder returns the raw inner product of embedding
rows (entry (i,j) is the dot product of rows i and j), not the norm-divided
cosine similarity: on two identical rows [3,4] the entry is 25 while the
cosine value is 1. -/
theorem claim_C5_raw_inner_product :
    (∀ (N D : ℕ) (E : Matrix (Fin N) (Fin D) ℚ) (i j : Fin N),
        get_similarity_matrix E i j = ∑ k, E i k * E j k) ∧
      get_similarity_matrix simE 0 1 = 25 ∧ cosine_similarity simE 0 1 = 1 := by
  have hsim : get_similarity_matrix simE 0 1 = 25 := by
    norm_num [get_similarity_matrix, simE, Matrix.mul_apply, Matrix.transpose,
      Matrix.of_apply, Matrix.vecHead, Matrix.vecTail, Fin.sum_univ_succ]
  refine ⟨?_, hsim, ?_⟩
  · intro N D E i j
    simp [get_similarity_matrix, Matrix.mul_apply, Matrix.transpose_apply]
  · have h25 : Real.sqrt 25 = 5 := by
      rw [show (25 : ℝ) = 5 ^ 2 by norm_num, Real.sqrt_sq]
      norm_num
    have hrow0 : (∑ k, ((simE 0 k : ℝ)) ^ 2) = 25 := by
      norm_num [simE, Matrix.of_apply, Matrix.vecHead, Matrix.vecTail,
        Fin.sum_univ_succ]
    have hrow1 : (∑ k, ((simE 1 k : ℝ)) ^ 2) = 25 := by
      norm_num [simE, Matrix.of_apply, Matrix.vecHead, Matrix.vecTail,
        Fin.sum_univ_succ]
    unfold cosine_similarity
    rw [hsim, hrow0, hrow1, h25]
    norm_num

/-- Claim C6: for every corpus and every requested count n at least 0, the
summarizer's output has length exactly min(n, N): requests beyond N clamp to
all N sentences and n = 0 gives the empty sequence. -/
theorem claim_C6_output_length (corpus : List String) (D : ℕ)
    (E : Matrix (Fin corpus.length) (Fin D) ℚ) (t : Option ℚ) (n : ℤ)
    (hn : 0 ≤ n) :
    (summarize corpus E t n).length = min n.toNat corpus.length := by
  simp [summarize, get_top_sentences, py_take, slice_stop, hn, List.length_take,
    List.length_reverse, argsort_length, List.length_ofFn]

theorem claim_C6_output_length_witness :
    (0 ≤ (2 : ℤ)) ∧
      (summarize ["x"] oneE none 2).length = min (2 : ℤ).toNat (["x"].length) :=
  ⟨by norm_num, claim_C6_output_length ["x"] 1 oneE none 2 (by norm_num)⟩

/-- Claim C7 counterexample: a negative n is not rejected; the selector
computes a result via Python slice semantics (here the ranking minus its last
entry), rather than failing fast. -/
theorem claim_C7_counterexample :
    get_top_sentences ([1, 1, 0] : List ℚ) (-1) = [1, 0] := by decide

/-- Claim C7 amended: a negative n is not a checked precondition; the selector
applies Python slice semantics, returning the first max(0, N - |n|) entries of
the descending ranking (an ordinary result, no error). -/
theorem claim_C7_amended {α : Type} [LinearOrder α] (s : List α) (n : ℤ)
    (hn : n < 0) :
    get_top_sentences s n = (argsort s).reverse.take (s.length - (-n).toNat) ∧
      (get_top_sentences s n).length = s.length - (-n).toNat := by
  have hlen : (argsort s).reverse.length = s.length := by
    rw [List.length_reverse, argsort_length]
  constructor
  · unfold get_top_sentences py_take slice_stop
    rw [if_neg (not_le.mpr hn), hlen]
  · unfold get_top_sentences py_take slice_stop
    rw [if_neg (not_le.mpr hn), List.length_take, hlen]
    omega

theorem claim_C7_amended_witness :
    ((-1 : ℤ) < 0) ∧
      (get_top_sentences ([1, 1, 0] : List ℚ) (-1) =
          (argsort ([1, 1, 0] : List ℚ)).reverse.take
            (([1, 1, 0] : List ℚ).length - (-(-1 : ℤ)).toNat) ∧
        (get_top_sentences ([1, 1, 0] : List ℚ) (-1)).length =
          ([1, 1, 0] : List ℚ).length - (-(-1 : ℤ)).toNat) :=
  ⟨by norm_num, claim_C7_amended ([1, 1, 0] : List ℚ) (-1) (by norm_num)⟩

/-- Claim C8: for the empty corpus the pipeline produces the empty score
vector and the summarizer returns the empty sequence for every threshold and
every requested count, raising no error. -/
theorem claim_C8_empty_corpus (D : ℕ)
    (E : Matrix (Fin (List.length ([] : List String))) (Fin D) ℚ)
    (t : Option ℚ) (n : ℤ) :
    List.ofFn (get_lexrank_scores E t) = [] ∧ summarize [] E t n = [] := by
  constructor
  · rfl
  · simp [summarize, get_top_sentences, py_take, argsort]

/-- Claim C9 counterexample: with thresholds t1 = -1/2 and t2 = 0 > t1, the
entry -1 is zeroed at t1 but (0 being falsy) survives at t2 unchanged and
nonzero, so raising the threshold un-zeroes an entry. -/
theorem claim_C9_counterexample :
    ((-1 / 2 : ℚ) < 0) ∧
      threshold_step (some 0) (get_similarity_matrix negE) 0 1 ≠
        threshold_step (some (-1 / 2)) (get_similarity_matrix negE) 0 1 ∧
      threshold_step (some 0) (get_similarity_matrix negE) 0 1 ≠ 0 := by
  refine ⟨by norm_num, ?_, ?_⟩
  · have h1 : threshold_step (some 0) (get_similarity_matrix negE) 0 1 = -1 := by
      simp [threshold_step, getSimNeg]
    have h2 : threshold_step (some (-1 / 2)) (get_similarity_matrix negE) 0 1 = 0 := by
      norm_num [threshold_step, mask_below, getSimNeg]
    rw [h1, h2]
    norm_num
  · simp [threshold_step, getSimNeg]

/-- Claim C9 amended: for thresholds t1 < t2 with t2 nonzero (so that the
masking at t2 actually runs), every entry thresholded at t2 either equals the
entry thresholded at t1 or is zero: a larger applied threshold only zeroes
more entries. -/
theorem claim_C9_amended {N : ℕ} (t1 t2 : ℚ) (S : Matrix (Fin N) (Fin N) ℚ)
    (h12 : t1 < t2) (ht2 : t2 ≠ 0) (i j : Fin N) :
    threshold_step (some t2) S i j = threshold_step (some t1) S i j ∨
      threshold_step (some t2) S i j = 0 := by
  by_cases h1 : t1 = 0
  · subst h1
    by_cases hlt : S i j < t2
    · right
      simp [threshold_step, ht2, mask_below, hlt]
    · left
      simp [threshold_step, ht2, mask_below, hlt]
  · by_cases hlt2 : S i j < t2
    · right
      simp [threshold_step, ht2, mask_below, hlt2]
    · left
      have hlt1 : ¬ S i j < t1 := fun h => hlt2 (h.trans h12)
      simp [threshold_step, ht2, h1, mask_below, hlt2, hlt1]

theorem claim_C9_amended_witness :
    ((1 : ℚ) < 2) ∧ ((2 : ℚ) ≠ 0) ∧
      (threshold_step (some 2) (get_similarity_matrix negE) 0 1 =
          threshold_step (some 1) (get_similarity_matrix negE) 0 1 ∨
        threshold_step (some 2) (get_similarity_matrix negE) 0 1 = 0) :=
  ⟨by norm_num, by norm_num,
    claim_C9_amended 1 2 (get_similarity_matrix negE) (by norm_num) (by norm_num) 0 1⟩

/-- Claim C10: a configured threshold of 0.0 is falsy in Python, so the
thresholding step is skipped exactly as when the threshold is absent; the
matrix passes through unchanged even where entries are strictly negative. -/
theorem claim_C10_zero_threshold {N : ℕ} (S : Matrix (Fin N) (Fin N) ℚ) :
    threshold_step (some 0) S = S ∧
      threshold_step (some 0) S = threshold_step none S ∧
      threshold_step (some 0) (get_similarity_matrix negE) 0 1 = -1 := by
  refine ⟨?_, ?_, ?_⟩
  · simp [threshold_step]
  · simp [threshold_step]
  · simp [threshold_step, getSimNeg]

lemma demo_sim_eval : get_similarity_matrix demoE =
    Matrix.of ![![1, 1, 0], ![1, 1, 0], ![0, 0, 1]] := by
  ext i j
  fin_cases i <;> fin_cases j <;>
    norm_num [get_similarity_matrix, demoE, Matrix.mul_apply, Matrix.transpose,
      Matrix.of_apply, Matrix.vecHead, Matrix.vecTail, Fin.sum_univ_succ]

lemma demo_znorm_eval :
    z_norm_sq (Matrix.of ![![(1 : ℚ), 1, 0], ![1, 1, 0], ![0, 0, 1]]) = 9 := by
  norm_num [z_norm_sq, col_sums, Matrix.of_apply, Matrix.vecHead, Matrix.vecTail,
    Fin.sum_univ_succ]

lemma demo_score_pt (i : Fin 3) :
    scores_from_matrix (Matrix.of ![![(1 : ℚ), 1, 0], ![1, 1, 0], ![0, 0, 1]]) i =
      ![(4 : ℝ) / 3, 4 / 3, 1 / 3] i := by
  have hsqrt : Real.sqrt
      ((z_norm_sq (Matrix.of ![![(1 : ℚ), 1, 0], ![1, 1, 0], ![0, 0, 1]]) : ℝ)) = 3 := by
    rw [demo_znorm_eval]
    rw [show (((9 : ℚ)) : ℝ) = 3 ^ 2 by norm_num]
    rw [Real.sqrt_sq]
    norm_num
  fin_cases i <;>
    norm_num [scores_from_matrix, Matrix.vecMul, Matrix.dotProduct,
      Matrix.transpose_apply, Matrix.map_apply, col_sums, Matrix.of_apply,
      Matrix.vecHead, Matrix.vecTail, Fin.sum_univ_succ, hsqrt]

lemma demo_scores_eval :
    List.ofFn (get_lexrank_scores demoE none) = [(4 : ℝ) / 3, 4 / 3, 1 / 3] := by
  have hpt : ∀ i : Fin 3, get_lexrank_scores demoE none i =
      ![(4 : ℝ) / 3, 4 / 3, 1 / 3] i := by
    intro i
    unfold get_lexrank_scores
    rw [show threshold_step none (get_similarity_matrix demoE) =
      Matrix.of ![![(1 : ℚ), 1, 0], ![1, 1, 0], ![0, 0, 1]] from demo_sim_eval]
    exact demo_score_pt i
  rw [show List.ofFn (get_lexrank_scores demoE none) =
    [get_lexrank_scores demoE none 0, get_lexrank_scores demoE none 1,
      get_lexrank_scores demoE none 2] from rfl]
  rw [hpt 0, hpt 1, hpt 2]
  norm_num

lemma demo_top_eval :
    get_top_sentences ([(4 : ℝ) / 3, 4 / 3, 1 / 3]) 2 = [1, 0] := by
  unfold get_top_sentences argsort py_take slice_stop
  rw [show ([(4 : ℝ) / 3, 4 / 3, 1 / 3].zip
      (List.range ([(4 : ℝ) / 3, 4 / 3, 1 / 3].length))) =
    [((4 : ℝ) / 3, 0), ((4 : ℝ) / 3, 1), ((1 : ℝ) / 3, 2)] from rfl]
  norm_num [List.insertionSort, List.orderedInsert, pairLe]
  decide

lemma demo_summarize_eval : summarize demoCorpus demoE none 2 = ["b", "a"] := by
  show (get_top_sentences (@List.ofFn ℝ 3 (get_lexrank_scores demoE none)) 2).map
    (fun i => demoCorpus.getD i "") = ["b", "a"]
  rw [demo_scores_eval, demo_top_eval]
  rfl

/-- Claim C2 counterexample: on the corpus with embeddings [[1,0],[1,0],[0,1]]
and n = 2, sentences 0 and 1 have exactly equal scores 4/3 but the code
returns them as indices 1 then 0 (stable ascending argsort followed by
reversal puts the larger tied index first), not 0 then 1. -/
theorem claim_C2_counterexample :
    summarize demoCorpus demoE none 2 = ["b", "a"] ∧
      summarize demoCorpus demoE none 2 ≠ ["a", "b"] := by
  refine ⟨demo_summarize_eval, ?_⟩
  rw [demo_summarize_eval]
  decide

/-- Claim C2 amended: whenever two sentences have exactly equal scores, the
selector places the sentence with the larger original corpus index before,
and selects it in preference to, the one with the smaller index; in
particular, on the corpus with embeddings [[1,0],[1,0],[0,1]] and n = 2 the
returned sentences are those at indices 1 and 0 in that order. -/
theorem claim_C2_amended {α : Type} [LinearOrder α] (s : List α) (n : ℤ)
    (i j : ℕ) (hij : i < j) (hj : j < s.length)
    (heq : s.get ⟨i, hij.trans hj⟩ = s.get ⟨j, hj⟩) :
    (i ∈ get_top_sentences s n →
      j ∈ get_top_sentences s n ∧
        (get_top_sentences s n).indexOf j < (get_top_sentences s n).indexOf i) ∧
      summarize demoCorpus demoE none 2 = ["b", "a"] := by
  refine ⟨?_, demo_summarize_eval⟩
  have hTdef : get_top_sentences s n =
      (argsort s).reverse.take (slice_stop n (argsort s).reverse.length) := rfl
  rw [hTdef]
  intro hiT
  have hRnd : (argsort s).reverse.Nodup := List.nodup_reverse.mpr (argsort_nodup s)
  have hTnd : ((argsort s).reverse.take
      (slice_stop n (argsort s).reverse.length)).Nodup :=
    (List.take_sublist _ _).nodup hRnd
  obtain ⟨p, hp, hgp⟩ := List.getElem_of_mem hiT
  have hpR : p < (argsort s).reverse.length := by
    have h0 := hp
    rw [List.length_take] at h0
    omega
  have hpk : p < slice_stop n (argsort s).reverse.length := by
    have h0 := hp
    rw [List.length_take] at h0
    omega
  have hgpR : (argsort s).reverse.get ⟨p, hpR⟩ = i := by
    rw [List.get_eq_getElem]
    rw [← hgp]
    simp [List.getElem_take]
  have hIdxI : (argsort s).reverse.indexOf i = p := by
    rw [← hgpR]
    rw [List.get_eq_getElem]
    exact List.indexOf_getElem hRnd p hpR
  have hlt := rank_tie_indexOf s hij hj heq
  have hjmem : j ∈ (argsort s).reverse := by
    rw [List.mem_reverse, mem_argsort]
    exact hj
  have hjR : (argsort s).reverse.indexOf j < (argsort s).reverse.length :=
    List.indexOf_lt_length.mpr hjmem
  have hjk : (argsort s).reverse.indexOf j <
      slice_stop n (argsort s).reverse.length := by omega
  have hbT : (argsort s).reverse.indexOf j <
      ((argsort s).reverse.take (slice_stop n (argsort s).reverse.length)).length := by
    rw [List.length_take]
    omega
  have hTj : ((argsort s).reverse.take
      (slice_stop n (argsort s).reverse.length)).get
        ⟨(argsort s).reverse.indexOf j, hbT⟩ = j := by
    rw [List.get_eq_getElem]
    simp only [List.getElem_take]
    exact List.getElem_indexOf hjR
  have hjT : j ∈ (argsort s).reverse.take
      (slice_stop n (argsort s).reverse.length) :=
    hTj ▸ List.get_mem _ _ _
  refine ⟨hjT, ?_⟩
  have hTidxI : ((argsort s).reverse.take
      (slice_stop n (argsort s).reverse.length)).indexOf i = p := by
    rw [← hgp]
    exact List.indexOf_getElem hTnd p hp
  have hTidxJ : ((argsort s).reverse.take
      (slice_stop n (argsort s).reverse.length)).indexOf j =
        (argsort s).reverse.indexOf j := by
    have h0 : ((argsort s).reverse.take
        (slice_stop n (argsort s).reverse.length)).indexOf
          (((argsort s).reverse.take
            (slice_stop n (argsort s).reverse.length)).get
              ⟨(argsort s).reverse.indexOf j, hbT⟩) =
        (argsort s).reverse.indexOf j := by
      rw [List.get_eq_getElem]
      exact List.indexOf_getElem hTnd _ hbT
    rw [hTj] at h0
    exact h0
  rw [hTidxI, hTidxJ]
  omega

theorem claim_C2_amended_witness :
    ((0 : ℕ) < 1) ∧ (1 < ([5, 5] : List ℚ).length) ∧
      (([5, 5] : List ℚ).get ⟨0, by norm_num⟩ = ([5, 5] : List ℚ).get ⟨1, by norm_num⟩) ∧
      ((0 ∈ get_top_sentences ([5, 5] : List ℚ) 2 →
        1 ∈ get_top_sentences ([5, 5] : List ℚ) 2 ∧
          (get_top_sentences ([5, 5] : List ℚ) 2).indexOf 1 <
            (get_top_sentences ([5, 5] : List ℚ) 2).indexOf 0) ∧
        summarize demoCorpus demoE none 2 = ["b", "a"]) :=
  ⟨by norm_num, by norm_num, by norm_num,
    claim_C2_amended ([5, 5] : List ℚ) 2 0 1 (by norm_num) (by norm_num) (by norm_num)⟩

end FastLexRank
